import Mathlib

/-!
Shallow embedding of `src/backend/services/audit_selection_optimizer.py`
(the Selection & Allocation Engine of vpx-pro/audit-optimizer).

Numbers: the Python code computes with floats over spreadsheet-sized values;
the embedding uses `Rat` (exact arithmetic) for ratings, manday costs and
targets, and `Int`/`Nat` for unit counts, with Python's `round` modelled as
round-half-to-even on the rational value.

Tables: a pandas `DataFrame` row of the audit universe is an `AuditUnit`
carrying its pandas row label `idx`; `DataFrame.loc`-writes by label become
list maps guarded on `idx`.  Fallible library calls (`DataFrame.sample` with
a sample larger than the population, positional `iloc` access into an empty
frame) are modelled with `Option`/`Except`.
-/

namespace AuditOpt

/-- Round-half-to-even on a rational, modelling Python's builtin `round(x)`
(which the source uses at `round(total_mandays * pct / 100)` and for tier
targets).  Ties (fractional part exactly 1/2) go to the even neighbour. -/
def pyRound (q : ℚ) : ℤ :=
  let f : ℤ := ⌊q⌋
  let frac : ℚ := q - f
  if frac < 1/2 then f
  else if 1/2 < frac then f + 1
  else if f % 2 = 0 then f else f + 1

/-- Python's `round(x, 1)` (one decimal digit, half-to-even), used for the
utilization percentages. -/
def pyRound1 (q : ℚ) : ℚ :=
  (pyRound (q * 10) : ℚ) / 10

/-! ### MD5, for `_stable_seed`

The source seeds the High-tier random draw with
`int(hashlib.md5(str(text).encode()).hexdigest(), 16) % (2**32)`.
The embedding implements MD5 over the UTF-8 bytes of the department name
(Python's `str.encode()` is UTF-8) as a `Nat`-valued function: the value of
md5Hexint equals the integer value of the hexadecimal digest. -/

/-- Left-rotation of a 32-bit word held in a `Nat`. -/
def rotl32 (x n : Nat) : Nat :=
  ((x <<< n) % 2 ^ 32) ||| (x >>> (32 - n))

/-- Per-round shift amounts of MD5 (RFC 1321). -/
def md5S : List Nat :=
  [7, 12, 17, 22, 7, 12, 17, 22, 7, 12, 17, 22, 7, 12, 17, 22,
   5, 9, 14, 20, 5, 9, 14, 20, 5, 9, 14, 20, 5, 9, 14, 20,
   4, 11, 16, 23, 4, 11, 16, 23, 4, 11, 16, 23, 4, 11, 16, 23,
   6, 10, 15, 21, 6, 10, 15, 21, 6, 10, 15, 21, 6, 10, 15, 21]

/-- Per-round additive constants of MD5 (RFC 1321), `floor(2^32 * |sin(i+1)|)`. -/
def md5K : List Nat :=
  [0xd76aa478, 0xe8c7b756, 0x242070db, 0xc1bdceee,
   0xf57c0faf, 0x4787c62a, 0xa8304613, 0xfd469501,
   0x698098d8, 0x8b44f7af, 0xffff5bb1, 0x895cd7be,
   0x6b901122, 0xfd987193, 0xa679438e, 0x49b40821,
   0xf61e2562, 0xc040b340, 0x265e5a51, 0xe9b6c7aa,
   0xd62f105d, 0x02441453, 0xd8a1e681, 0xe7d3fbc8,
   0x21e1cde6, 0xc33707d6, 0xf4d50d87, 0x455a14ed,
   0xa9e3e905, 0xfcefa3f8, 0x676f02d9, 0x8d2a4c8a,
   0xfffa3942, 0x8771f681, 0x6d9d6122, 0xfde5380c,
   0xa4beea44, 0x4bdecfa9, 0xf6bb4b60, 0xbebfbc70,
   0x289b7ec6, 0xeaa127fa, 0xd4ef3085, 0x04881d05,
   0xd9d4d039, 0xe6db99e5, 0x1fa27cf8, 0xc4ac5665,
   0xf4292244, 0x432aff97, 0xab9423a7, 0xfc93a039,
   0x655b59c3, 0x8f0ccc92, 0xffeff47d, 0x85845dd1,
   0x6fa87e4f, 0xfe2ce6e0, 0xa3014314, 0x4e0811a1,
   0xf7537e82, 0xbd3af235, 0x2ad7d2bb, 0xeb86d391]

/-- Little-endian 32-bit word from four bytes. -/
def word32 (b0 b1 b2 b3 : Nat) : Nat :=
  b0 + b1 * 256 + b2 * 65536 + b3 * 16777216

/-- Extract the g-th little-endian 32-bit word of a 64-byte block. -/
def blockWord (blk : List Nat) (g : Nat) : Nat :=
  word32 (blk.getD (4 * g) 0) (blk.getD (4 * g + 1) 0)
    (blk.getD (4 * g + 2) 0) (blk.getD (4 * g + 3) 0)

/-- One MD5 round: mixes round index `i` into the running state `(a,b,c,d)`
using the message block `blk`. -/
def md5Round (blk : List Nat) (st : Nat × Nat × Nat × Nat) (i : Nat) :
    Nat × Nat × Nat × Nat :=
  let (a, b, c, d) := st
  let fg : Nat × Nat :=
    if i < 16 then ((b &&& c) ||| ((2 ^ 32 - 1 - b) &&& d), i)
    else if i < 32 then ((d &&& b) ||| ((2 ^ 32 - 1 - d) &&& c), (5 * i + 1) % 16)
    else if i < 48 then (b ^^^ c ^^^ d, (3 * i + 5) % 16)
    else (c ^^^ (b ||| (2 ^ 32 - 1 - d)), (7 * i) % 16)
  let f := fg.1
  let g := fg.2
  let tmp := (a + f + md5K.getD i 0 + blockWord blk g) % 2 ^ 32
  let nb := (b + rotl32 tmp (md5S.getD i 0)) % 2 ^ 32
  (d, nb, b, c)

/-- Process one 64-byte block, updating the four 32-bit state words. -/
def md5Block (st : Nat × Nat × Nat × Nat) (blk : List Nat) :
    Nat × Nat × Nat × Nat :=
  let (a0, b0, c0, d0) := st
  let (a, b, c, d) := (List.range 64).foldl (md5Round blk) (a0, b0, c0, d0)
  ((a0 + a) % 2 ^ 32, (b0 + b) % 2 ^ 32, (c0 + c) % 2 ^ 32, (d0 + d) % 2 ^ 32)

/-- Split a byte list into 64-byte blocks (the input length is always a
multiple of 64 after MD5 padding); `fuel` bounds the recursion and is set to
the list length by the caller. -/
def chunks64 (fuel : Nat) (l : List Nat) : List (List Nat) :=
  match fuel, l with
  | _, [] => []
  | 0, _ => [l]
  | f + 1, l => l.take 64 :: chunks64 f (l.drop 64)

/-- MD5 padding: append 0x80, zero-pad to 56 mod 64, append the bit length
as a 64-bit little-endian quantity. -/
def md5Pad (msg : List Nat) : List Nat :=
  let L := msg.length
  let zeros := (64 + 56 - (L + 1) % 64) % 64
  let bitLen := (8 * L) % 2 ^ 64
  msg ++ [0x80] ++ List.replicate zeros 0 ++
    (List.range 8).map (fun i => bitLen / 2 ^ (8 * i) % 256)

/-- Serialize a 32-bit word to its four little-endian bytes. -/
def leBytes (x : Nat) : List Nat :=
  [x % 256, x / 256 % 256, x / 65536 % 256, x / 16777216 % 256]

/-- MD5 digest of a byte string, returned as the integer value of the
hexadecimal digest (big-endian over the 16 digest bytes), i.e. Python's
`int(hashlib.md5(bytes).hexdigest(), 16)`. -/
def md5Hexint (msg : List Nat) : Nat :=
  let blocks := chunks64 (md5Pad msg).length (md5Pad msg)
  let (a, b, c, d) :=
    blocks.foldl md5Block (0x67452301, 0xefcdab89, 0x98badcfe, 0x10325476)
  (leBytes a ++ leBytes b ++ leBytes c ++ leBytes d).foldl
    (fun acc by2 => acc * 256 + by2) 0

/-- UTF-8 bytes of a string, as `Nat`s (Python `str.encode()`). -/
def strBytes (s : String) : List Nat :=
  s.toUTF8.toList.map (fun b => b.toNat)

/-- Embedding of `_stable_seed` (line 17-18):
`int(hashlib.md5(str(text).encode()).hexdigest(), 16) % (2**32)`. -/
def stable_seed (text : String) : Nat :=
  md5Hexint (strBytes text) % 2 ^ 32

/-! ### Data model

One row of the working audit table built at lines 98-104 of the source
(`audit["Department"]`, `audit["Section"]`, `audit["Audit Risk Category"]`,
`audit["Total Rating"]`, `audit["Selected"]`, `audit["Party days"]`),
together with its pandas row label `idx`, through which `audit.loc` writes
selection results back. -/
structure AuditUnit where
  idx : Nat
  department : String
  sectionName : String
  riskCategory : String
  rating : ℚ
  selected : Bool := false
  assignedDays : ℚ := 0
deriving DecidableEq, Inhabited, Repr

/-- Trace lines appended to `log_lines` by the engine, abstracted from their
f-string rendering to the variant emitted and the data interpolated into it. -/
inductive LogEntry where
  /-- "No pool or MD<=0" (line 29). -/
  | noPool (dept risk : String)
  /-- "Target too low for MD=…" (line 34). -/
  | targetTooLow (dept risk : String) (md : ℚ)
  /-- "… top + … random x … days" (line 47). -/
  | highSplit (dept : String) (topN remN : Nat) (md : ℚ)
  /-- "Stable random seed for …: …" (line 48). -/
  | seedLine (dept : String) (seed : Nat)
  /-- "… units x … days" (line 51). -/
  | detLine (dept risk : String) (n : Nat) (md : ℚ)
  /-- "…: No matching audit units found." (line 126). -/
  | noMatch (dept : String)
  /-- per-department summary line (line 137). -/
  | deptLine (dept : String) (target : ℤ) (used util : ℚ) (h m l : Nat)
deriving DecidableEq, Repr

/-! ### The pool sort: `subset.sort_values(by="Total Rating", ascending=False)`

pandas implements a single-column descending `sort_values` (default
`kind="quicksort"`) in `nargsort` as: reverse the values array, compute the
ascending argsort of the reversed array with numpy's introspective quicksort
(`aquicksort`), map the resulting positions through the reversed index, and
reverse the final indexer.  numpy's `aquicksort` partitions ranges longer
than `SMALL_QUICKSORT = 15` elements around a median-of-three pivot
(processing the smaller side first, pushing the larger) and finishes shorter
ranges with a stable insertion sort; a global depth budget of
`2 * floor(log2 n)` partitions falls back to heapsort.  All of it is
reproduced below over a `List Nat` of positions (reads are `getD`, writes are
`set`); recursion fuels are set by the callers to bounds that the C loop
structure never exceeds, so the translation computes the same permutation. -/

/-- Insertion step of numpy's `aquicksort` insertion-sort phase, at the list
level: the C code shifts the saved position left past all strictly greater
keys, which places it directly before the first strictly greater key of the
(sorted) prefix — equal keys are never crossed, making the phase stable. -/
def insertIdx (v : Nat → ℚ) (i : Nat) : List Nat → List Nat
  | [] => [i]
  | j :: rest => if v i < v j then i :: j :: rest else j :: insertIdx v i rest

/-- The insertion-sort phase over a segment's position list, processing
positions left to right as the C loop does. -/
def ainsertFold (v : Nat → ℚ) (l : List Nat) : List Nat :=
  l.foldl (fun acc i => insertIdx v i acc) []

/-- Apply the insertion-sort phase to the segment `[pl, pr]` (inclusive) of
the position list, leaving the rest untouched. -/
def insertionSegment (v : Nat → ℚ) (a : List Nat) (pl pr : Nat) : List Nat :=
  if pr < pl then a
  else a.take pl ++ ainsertFold v ((a.drop pl).take (pr + 1 - pl)) ++ a.drop (pr + 1)

/-- Swap two entries of the position list. -/
def lswap (a : List Nat) (i j : Nat) : List Nat :=
  (a.set i (a.getD j 0)).set j (a.getD i 0)

/-- The `do ++pi; while (v[a[pi]] < vp)` scan of the partition loop. -/
def scanUp (v : Nat → ℚ) (vp : ℚ) (a : List Nat) : Nat → Nat → Nat
  | 0, pi => pi + 1
  | f + 1, pi =>
    let pi2 := pi + 1
    if v (a.getD pi2 0) < vp then scanUp v vp a f pi2 else pi2

/-- The `do --pj; while (vp < v[a[pj]])` scan of the partition loop. -/
def scanDown (v : Nat → ℚ) (vp : ℚ) (a : List Nat) : Nat → Nat → Nat
  | 0, pj => pj - 1
  | f + 1, pj =>
    let pj2 := pj - 1
    if vp < v (a.getD pj2 0) then scanDown v vp a f pj2 else pj2

/-- The two-pointer exchange loop of the partition (`for (;;) { … }` in the C
code): scan up, scan down, stop when the pointers cross, otherwise swap and
continue from the current positions. -/
def partLoop (v : Nat → ℚ) (vp : ℚ) : Nat → List Nat → Nat → Nat → List Nat × Nat
  | 0, a, pi, _ => (a, pi)
  | f + 1, a, pi, pj =>
    let n := a.length
    let pi2 := scanUp v vp a n pi
    let pj2 := scanDown v vp a n pj
    if pj2 ≤ pi2 then (a, pi2)
    else partLoop v vp f (lswap a pi2 pj2) pi2 pj2

/-- One quicksort partition of `aquicksort` on segment `[pl, pr]`:
median-of-three pivot selection (with conditional swaps), pivot parked at
`pr - 1`, two-pointer exchange, pivot swapped back to the split point `pi`.
Returns the updated position list and `pi`. -/
def partitionStep (v : Nat → ℚ) (a : List Nat) (pl pr : Nat) : List Nat × Nat :=
  let pm := pl + (pr - pl) / 2
  let a1 := if v (a.getD pm 0) < v (a.getD pl 0) then lswap a pm pl else a
  let a2 := if v (a1.getD pr 0) < v (a1.getD pm 0) then lswap a1 pr pm else a1
  let a3 := if v (a2.getD pm 0) < v (a2.getD pl 0) then lswap a2 pm pl else a2
  let vp := v (a3.getD pm 0)
  let a4 := lswap a3 pm (pr - 1)
  let (a5, pi) := partLoop v vp a4.length a4 pl (pr - 1)
  (lswap a5 pi (pr - 1), pi)

/-- Heap sift-down of numpy's `aheapsort` (1-based heap indices over the
segment list; `tmp` is the position value being sifted). -/
def hsift (v : Nat → ℚ) : Nat → List Nat → Nat → Nat → Nat → Nat → List Nat
  | 0, seg, tmp, i, _, _ => seg.set (i - 1) tmp
  | f + 1, seg, tmp, i, j, n =>
    if j ≤ n then
      let j2 := if j < n ∧ v (seg.getD (j - 1) 0) < v (seg.getD j 0) then j + 1 else j
      if v tmp < v (seg.getD (j2 - 1) 0) then
        hsift v f (seg.set (i - 1) (seg.getD (j2 - 1) 0)) tmp j2 (2 * j2) n
      else seg.set (i - 1) tmp
    else seg.set (i - 1) tmp

/-- Heapify phase of `aheapsort`: sift roots `n/2 … 1`. -/
def heapify (v : Nat → ℚ) : Nat → List Nat → Nat → Nat → List Nat
  | 0, seg, _, _ => seg
  | f + 1, seg, l, n =>
    if l = 0 then seg
    else heapify v f (hsift v (n + 2) seg (seg.getD (l - 1) 0) l (2 * l) n) (l - 1) n

/-- Extraction phase of `aheapsort`: repeatedly move the max to the end and
re-sift. -/
def heapExtract (v : Nat → ℚ) : Nat → List Nat → Nat → List Nat
  | 0, seg, _ => seg
  | f + 1, seg, n =>
    if n ≤ 1 then seg
    else
      let tmp := seg.getD (n - 1) 0
      let seg1 := seg.set (n - 1) (seg.getD 0 0)
      heapExtract v f (hsift v (n + 2) seg1 tmp 1 2 (n - 1)) (n - 1)

/-- numpy's `aheapsort` on the segment `[pl, pr]` of the position list,
reached only when the partition depth budget is exhausted. -/
def aheapsortSeg (v : Nat → ℚ) (a : List Nat) (pl pr : Nat) : List Nat :=
  if pr < pl then a
  else
    let seg := (a.drop pl).take (pr + 1 - pl)
    let n := seg.length
    let seg2 := heapExtract v (n + 1) (heapify v (n + 1) seg (n / 2) n) n
    a.take pl ++ seg2 ++ a.drop (pr + 1)

/-- The introsort recursion of `aquicksort`: segments longer than 16 are
partitioned (smaller side processed first, as the C stack does) with the
shared depth budget `dl` threaded through and decremented per partition;
segments of at most 16 positions take the insertion-sort phase. -/
def introRec (v : Nat → ℚ) : Nat → List Nat → ℤ → Nat → Nat → List Nat × ℤ
  | 0, a, dl, _, _ => (a, dl)
  | f + 1, a, dl, pl, pr =>
    if 15 < pr - pl then
      if dl < 0 then (aheapsortSeg v a pl pr, dl - 1)
      else
        let (a1, pi) := partitionStep v a pl pr
        if pi - pl < pr - pi then
          let (a2, dl2) := introRec v f a1 (dl - 1) pl (pi - 1)
          introRec v f a2 dl2 (pi + 1) pr
        else
          let (a2, dl2) := introRec v f a1 (dl - 1) (pi + 1) pr
          introRec v f a2 dl2 pl (pi - 1)
    else (insertionSegment v a pl pr, dl)

/-- numpy `aquicksort` over keys `v 0 … v (n-1)`: the ascending argsort
permutation of positions `0 … n-1`. -/
def aquicksortPerm (v : Nat → ℚ) (n : Nat) : List Nat :=
  (introRec v (n + 1) (List.range n) (2 * Nat.log2 (max n 1)) 0 (n - 1)).1

/-- pandas `nargsort` for `ascending=False` over a NaN-free key column (the
ratings pass through `fillna(0)`, so the NaN mask is empty): argsort the
reversed values, map through the reversed index (position `j` of the
reversed array is original position `n - 1 - j`), and reverse. -/
def nargsortDesc (ratings : List ℚ) : List Nat :=
  let n := ratings.length
  let p := aquicksortPerm (fun i => ratings.reverse.getD i 0) n
  (p.map (fun j => n - 1 - j)).reverse

/-- Embedding of line 37, `subset.sort_values(by="Total Rating",
ascending=False)`: the pool reordered by the `nargsort` indexer. -/
def sortPoolDesc (pool : List AuditUnit) : List AuditUnit :=
  (nargsortDesc (pool.map (fun u => u.rating))).map (fun i => pool.getD i default)

/-! ### The seeded random draw: `rem_pool.sample(n=rem_n, random_state=seed)`

pandas `DataFrame.sample` with an integer `random_state` builds
`np.random.RandomState(seed)` and, without replacement, takes the first `n`
entries of a seeded pseudo-random permutation of the row positions; it raises
`ValueError` when `n` exceeds the population.  The embedding keeps exactly
that interface — a deterministic function of the seed and the frame, drawing
`n` distinct rows, `none` on over-sampling — and drives the permutation by a
linear congruential generator in place of numpy's Mersenne Twister stream
(the specific stream is the only simplification; no claim depends on which
permutation a given seed denotes, only on its determinism and shape). -/

/-- One step of the stand-in pseudo-random stream (64-bit LCG). -/
def lcgNext (s : Nat) : Nat :=
  (s * 6364136223846793005 + 1442695040888963407) % 2 ^ 64

/-- Seeded pseudo-random permutation draw over a list of positions
(Fisher-Yates by repeated removal); `fuel` is set to the list length. -/
def drawPerm (st : Nat) : Nat → List Nat → List Nat
  | 0, _ => []
  | f + 1, l =>
    if l.length = 0 then []
    else
      let k := st % l.length
      l.getD k 0 :: drawPerm (lcgNext st) f (l.eraseIdx k)

/-- Model of `pool.sample(n=n, random_state=seed)`: `none` models the
`ValueError` pandas raises when `n` exceeds the population; otherwise the
first `n` rows of the seeded permutation of the pool. -/
def sampleSeeded (seed : Nat) (pool : List AuditUnit) (n : Nat) :
    Option (List AuditUnit) :=
  if pool.length < n then none
  else
    some (((drawPerm (lcgNext seed) pool.length (List.range pool.length)).take n).map
      (fun i => pool.getD i default))

/-! ### `_select_units` (lines 27-56) -/

/-- Embedding of line 32, `num_units = max(math.floor(target / md_value), 0)`. -/
def numUnitsOf (target md : ℚ) : ℤ :=
  max ⌊target / md⌋ 0

/-- Embedding of line 41, `top_n = math.ceil(num_units * 0.5)`: for the
(nonnegative, float-exact) integer `num_units` this is `⌈n/2⌉ = (n+1)/2`. -/
def topCountOf (numUnits : Nat) : Nat :=
  (numUnits + 1) / 2

/-- Apply lines 53-54 — `audit.loc[final_sel.index, "Selected"] = "Yes"` and
`audit.loc[final_sel.index, "Party days"] = md_value` — to the working table:
every row whose label occurs among the selected rows' labels is flipped. -/
def markSelected (audit : List AuditUnit) (sel : List AuditUnit) (md : ℚ) :
    List AuditUnit :=
  audit.map (fun u =>
    if (sel.map (fun s => s.idx)).contains u.idx then
      { u with selected := true, assignedDays := md }
    else u)

/-- What one `_select_units` call produces: the updated working table, the
grown log, the selected rows (`final_sel`, whose length and cost are the
Python return value `len(final_sel), len(final_sel) * md_value`), and the
mandays used. -/
structure SelResult where
  audit : List AuditUnit
  logs : List LogEntry
  sel : List AuditUnit
  used : ℚ
deriving DecidableEq, Repr

/-- Embedding of `_select_units(audit, subset, target, md_value, risk_label,
dept, log_lines)` (lines 27-56).  `none` models the `ValueError` escaping
from `rem_pool.sample` when the remainder pool is smaller than the sample
size (the one unguarded failure path). -/
def select_units (audit : List AuditUnit) (subset : List AuditUnit)
    (target md : ℚ) (riskLabel dept : String) (logs : List LogEntry) :
    Option SelResult :=
  if subset.isEmpty ∨ md ≤ 0 then
    some ⟨audit, logs ++ [.noPool dept riskLabel], [], 0⟩
  else
    let numUnits : ℤ := numUnitsOf target md
    if numUnits = 0 then
      some ⟨audit, logs ++ [.targetTooLow dept riskLabel md], [], 0⟩
    else
      let sorted := sortPoolDesc subset
      if riskLabel.toLower = "high" ∧ 1 < numUnits then
        let seed := stable_seed dept
        let topN := topCountOf numUnits.toNat
        let remN := numUnits.toNat - topN
        let topSel := sorted.take topN
        let remPool := sorted.drop topN
        match
          (if 0 < remN ∧ ¬remPool.isEmpty then sampleSeeded seed remPool remN
           else some []) with
        | none => none
        | some randomSel =>
          let finalSel := topSel ++ randomSel
          some ⟨markSelected audit finalSel md,
            logs ++ [.highSplit dept topN remN md, .seedLine dept seed],
            finalSel, finalSel.length * md⟩
      else
        let finalSel := sorted.take numUnits.toNat
        some ⟨markSelected audit finalSel md,
          logs ++ [.detLine dept riskLabel numUnits.toNat md],
          finalSel, finalSel.length * md⟩

/-! ### The department loop of `run_audit_selection_optimizer` (lines 109-137) -/

/-- One row of the `params` frame built at lines 78-86 (all numeric fields
already passed through `pd.to_numeric(...).fillna(0)`). -/
structure ParamRow where
  department : String
  percentage : ℚ
  highDays : ℚ
  mediumDays : ℚ
  lowDays : ℚ
  highPct : ℚ
  medPct : ℚ
  lowPct : ℚ
deriving DecidableEq, Inhabited, Repr

/-- One entry of `alloc_summary` (lines 127 and 136): department, allocated
mandays, used mandays, utilization percentage. -/
structure DeptSummary where
  department : String
  target : ℤ
  used : ℚ
  utilization : ℚ
deriving DecidableEq, Inhabited, Repr

/-- The state threaded through the department loop: the mutable working
table, the log, and the accumulated `alloc_summary`. -/
structure RunState where
  audit : List AuditUnit
  logs : List LogEntry
  summary : List DeptSummary
deriving DecidableEq, Repr

/-- Embedding of line 115, `dept_total = round(total_mandays * pct / 100)`. -/
def deptBudget (totalMandays pct : ℚ) : ℤ :=
  pyRound (totalMandays * pct / 100)

/-- Embedding of lines 119-121, `round(dept_total * tier_pct / 100)`. -/
def tierTarget (deptTotal : ℤ) (tierPct : ℚ) : ℤ :=
  pyRound ((deptTotal : ℚ) * tierPct / 100)

/-- Embedding of line 135, `round((used_total / dept_total) * 100, 1) if
dept_total > 0 else 0`. -/
def deptUtilization (used : ℚ) (deptTotal : ℤ) : ℚ :=
  if 0 < deptTotal then pyRound1 (used / (deptTotal : ℚ) * 100) else 0

/-- One iteration of the department loop (lines 109-137): skip a department
whose percentage is 0, compute the department and tier targets, filter the
department's pool case-insensitively, either record a target-only summary
row when no units match or run the three tier selections (High, Medium, Low)
against the shared working table.  `none` propagates a `_select_units`
failure.  The re-strip of the department name at line 110 is omitted: the
parameter builder (line 79, `astype(str).str.strip()`) already delivers
stripped names, so the second strip is the identity on every row this loop
receives. -/
def processDept (totalMandays : ℚ) (st : RunState) (p : ParamRow) :
    Option RunState :=
  if p.percentage = 0 then some st
  else
    let deptTotal := deptBudget totalMandays p.percentage
    let highTarget := tierTarget deptTotal p.highPct
    let medTarget := tierTarget deptTotal p.medPct
    let lowTarget := tierTarget deptTotal p.lowPct
    let deptDf := st.audit.filter
      (fun u => u.department.toLower = p.department.toLower)
    if deptDf.isEmpty then
      some { st with
        logs := st.logs ++ [.noMatch p.department],
        summary := st.summary ++ [⟨p.department, deptTotal, 0, 0⟩] }
    else do
      let r1 ← select_units st.audit (deptDf.filter (fun u => u.riskCategory = "High"))
        (highTarget : ℚ) p.highDays "High" p.department st.logs
      let r2 ← select_units r1.audit (deptDf.filter (fun u => u.riskCategory = "Medium"))
        (medTarget : ℚ) p.mediumDays "Medium" p.department r1.logs
      let r3 ← select_units r2.audit (deptDf.filter (fun u => u.riskCategory = "Low"))
        (lowTarget : ℚ) p.lowDays "Low" p.department r2.logs
      let usedTotal := r1.used + r2.used + r3.used
      let util := deptUtilization usedTotal deptTotal
      some ⟨r3.audit,
        r3.logs ++ [.deptLine p.department deptTotal usedTotal util
          r1.sel.length r2.sel.length r3.sel.length],
        st.summary ++ [⟨p.department, deptTotal, usedTotal, util⟩]⟩

/-- The whole department loop: fold `processDept` over the parameter rows
(the engine body of `run_audit_selection_optimizer` between reading the
tables and writing the workbook). -/
def runEngine (totalMandays : ℚ) (params : List ParamRow)
    (audit0 : List AuditUnit) : Option RunState :=
  params.foldlM (processDept totalMandays) ⟨audit0, [], []⟩

/-- Embedding of lines 181-183: `total_alloc`, `total_used` and the overall
utilization over `alloc_summary`. -/
def overallUtilization (summary : List DeptSummary) : ℚ :=
  let totalAlloc : ℤ := (summary.map (fun s => s.target)).sum
  let totalUsed : ℚ := (summary.map (fun s => s.used)).sum
  if 0 < totalAlloc then pyRound1 (totalUsed / (totalAlloc : ℚ) * 100) else 0

/-! ### The parameters stage (lines 61-86)

The parameters sheet arrives as rows of eight positional cells
`[Department, Percentage, HighDays, MediumDays, LowDays, HighPct, MedPct,
LowPct]` (the input contract), already stripped of all-NaN rows.  A cell
either holds a value `pd.to_numeric` can coerce (modelled `num`), a
non-numeric text (`text`), or is missing (`na`). -/

/-- One spreadsheet cell. -/
inductive Cell where
  | num (q : ℚ)
  | text (s : String)
  | na
deriving DecidableEq, Inhabited, Repr

/-- Python `pd.to_numeric(cell, errors="coerce")`: numeric value or NaN. -/
def toNumeric : Cell → Option ℚ
  | .num q => some q
  | .text _ => none
  | .na => none

/-- `pd.to_numeric(...).fillna(0)` on one cell. -/
def toNumericD (c : Cell) : ℚ :=
  (toNumeric c).getD 0

/-- The header test of line 72,
`str(cell).strip().lower().startswith("department")`: `str` of a numeric or
missing cell yields a numeral or "nan", neither of which starts with
"department". -/
def startsDepartment : Cell → Bool
  | .text s => s.trim.toLower.startsWith "department"
  | _ => false

/-- The textual value of a cell under `astype(str).str.strip()`; numeric
cells stringify to a numeral (never inspected by any claim, rendered here as
its decimal numerator/denominator pair is irrelevant, so an empty marker is
used) and missing cells to "nan". -/
def cellStr : Cell → String
  | .text s => s.trim
  | .num _ => ""
  | .na => "nan"

/-- One row of the parameters sheet: eight positional columns. -/
structure PRow where
  c0 : Cell := .na
  c1 : Cell := .na
  c2 : Cell := .na
  c3 : Cell := .na
  c4 : Cell := .na
  c5 : Cell := .na
  c6 : Cell := .na
  c7 : Cell := .na
deriving DecidableEq, Inhabited, Repr

/-- How the parameters stage can abort: line 66's `ValueError` when no
second-column value is numeric, and the `IndexError` escaping from
`params_data.iloc[0, 0]` at line 72 when the detected trailer is the very
first row, leaving `params_data` empty. -/
inductive PErr where
  | noTotal
  | indexError
deriving DecidableEq, Repr

/-- Position of the last row whose second column parses as numeric
(`col1_numeric.dropna().index[-1]`, line 68). -/
def lastNumericIdx (rows : List PRow) : Option Nat :=
  ((List.range rows.length).filter
    (fun i => (toNumeric (rows.getD i default).c1).isSome)).getLast?

/-- Lines 72-76 plus the frame build of lines 78-86: drop a leading header
row whose first cell starts with "department", keep rows with a numeric
percentage, and coerce the eight fields with 0-defaults. -/
def buildParamRows (pdata : List PRow) : List ParamRow :=
  let p2 := match pdata with
    | r :: rest => if startsDepartment r.c0 then rest else pdata
    | [] => pdata
  (p2.filter (fun r => (toNumeric r.c1).isSome)).map
    (fun r => ⟨cellStr r.c0, toNumericD r.c1, toNumericD r.c2, toNumericD r.c3,
      toNumericD r.c4, toNumericD r.c5, toNumericD r.c6, toNumericD r.c7⟩)

/-- Embedding of lines 64-86: locate the total-mandays trailer as the last
row with a numeric second column (fatal `ValueError` when there is none),
truncate the table to the rows before it, and build the parameter rows;
`params_data.iloc[0, 0]` at line 72 raises `IndexError` when the truncated
table is empty, i.e. when the trailer was the first row. -/
def paramsStage (rows : List PRow) : Except PErr (ℚ × List ParamRow) :=
  match lastNumericIdx rows with
  | none => .error .noTotal
  | some li =>
    let total := (toNumeric (rows.getD li default).c1).getD 0
    match li with
    | 0 => .error .indexError
    | _ + 1 => .ok (total, buildParamRows (rows.take li))

/-! ## Basic lemmas about the embedding -/

/-- The early-return of `_select_units` at line 28-30: empty pool or
non-positive manday cost. -/
theorem select_units_noPool {audit subset : List AuditUnit} {target md : ℚ}
    {riskLabel dept : String} {logs : List LogEntry}
    (h : subset.isEmpty ∨ md ≤ 0) :
    select_units audit subset target md riskLabel dept logs =
      some ⟨audit, logs ++ [.noPool dept riskLabel], [], 0⟩ := by
  simp only [select_units, if_pos h]

/-- The early-return of `_select_units` at line 33-35: affordable unit count
is zero. -/
theorem select_units_zeroUnits {audit subset : List AuditUnit} {target md : ℚ}
    {riskLabel dept : String} {logs : List LogEntry}
    (h1 : ¬(subset.isEmpty ∨ md ≤ 0)) (h2 : numUnitsOf target md = 0) :
    select_units audit subset target md riskLabel dept logs =
      some ⟨audit, logs ++ [.targetTooLow dept riskLabel md], [], 0⟩ := by
  simp only [select_units, if_neg h1, if_pos h2]

/-- The deterministic branch of `_select_units` at lines 50-51. -/
theorem select_units_det {audit subset : List AuditUnit} {target md : ℚ}
    {riskLabel dept : String} {logs : List LogEntry}
    (h1 : ¬(subset.isEmpty ∨ md ≤ 0)) (h2 : numUnitsOf target md ≠ 0)
    (h3 : ¬(riskLabel.toLower = "high" ∧ 1 < numUnitsOf target md)) :
    select_units audit subset target md riskLabel dept logs =
      some ⟨markSelected audit ((sortPoolDesc subset).take (numUnitsOf target md).toNat) md,
        logs ++ [.detLine dept riskLabel (numUnitsOf target md).toNat md],
        (sortPoolDesc subset).take (numUnitsOf target md).toNat,
        ((sortPoolDesc subset).take (numUnitsOf target md).toNat).length * md⟩ := by
  simp only [select_units, if_neg h1, if_neg h2, if_neg h3]

/-- The High split branch of `_select_units` at lines 39-48, exposed as the
match over the sampling result. -/
theorem select_units_high {audit subset : List AuditUnit} {target md : ℚ}
    {riskLabel dept : String} {logs : List LogEntry}
    (h1 : ¬(subset.isEmpty ∨ md ≤ 0)) (h2 : numUnitsOf target md ≠ 0)
    (h3 : riskLabel.toLower = "high" ∧ 1 < numUnitsOf target md) :
    select_units audit subset target md riskLabel dept logs =
      (match
        (if 0 < (numUnitsOf target md).toNat - topCountOf (numUnitsOf target md).toNat ∧
            ¬((sortPoolDesc subset).drop (topCountOf (numUnitsOf target md).toNat)).isEmpty then
          sampleSeeded (stable_seed dept)
            ((sortPoolDesc subset).drop (topCountOf (numUnitsOf target md).toNat))
            ((numUnitsOf target md).toNat - topCountOf (numUnitsOf target md).toNat)
        else some []) with
      | none => none
      | some randomSel =>
        some ⟨markSelected audit
            ((sortPoolDesc subset).take (topCountOf (numUnitsOf target md).toNat) ++ randomSel) md,
          logs ++ [.highSplit dept (topCountOf (numUnitsOf target md).toNat)
              ((numUnitsOf target md).toNat - topCountOf (numUnitsOf target md).toNat) md,
            .seedLine dept (stable_seed dept)],
          (sortPoolDesc subset).take (topCountOf (numUnitsOf target md).toNat) ++ randomSel,
          ((sortPoolDesc subset).take (topCountOf (numUnitsOf target md).toNat) ++ randomSel).length * md⟩) := by
  simp only [select_units, if_neg h1, if_neg h2, if_pos h3]

/-- Removing the element drawn at position `k` and re-consing it is a
permutation of the original list. -/
theorem getD_cons_eraseIdx_perm {l : List Nat} {k : Nat} (h : k < l.length) :
    (l.getD k 0 :: l.eraseIdx k).Perm l := by
  rw [List.eraseIdx_eq_take_drop_succ, List.getD_eq_getElem l 0 h]
  have hl : l = l.take k ++ l[k] :: l.drop (k + 1) := by
    conv_lhs => rw [← List.take_append_drop k l, List.drop_eq_getElem_cons h]
  conv_rhs => rw [hl]
  exact List.perm_middle.symm

/-- The seeded permutation draw is a permutation of its input when run with
enough fuel. -/
theorem drawPerm_perm (st fuel : Nat) (l : List Nat) (hf : l.length ≤ fuel) :
    (drawPerm st fuel l).Perm l := by
  induction fuel generalizing st l with
  | zero =>
    have : l = [] := List.eq_nil_of_length_eq_zero (Nat.le_zero.mp hf)
    simp [drawPerm, this]
  | succ f ih =>
    by_cases h0 : l.length = 0
    · simp [drawPerm, h0, List.eq_nil_of_length_eq_zero h0]
    · have hk : st % l.length < l.length := Nat.mod_lt _ (Nat.pos_of_ne_zero h0)
      have herase : (l.eraseIdx (st % l.length)).length ≤ f := by
        rw [List.length_eraseIdx]
        simp only [hk, if_pos]
        omega
      simp only [drawPerm, h0, if_neg (by omega : ¬ l.length = 0)]
      exact ((ih (lcgNext st) _ herase).cons _).trans (getD_cons_eraseIdx_perm hk)

/-- Mapping a list that is a sub-permutation of another maps to a
sub-permutation of the image. -/
theorem subperm_map {α β : Type} (f : α → β) {l₁ l₂ : List α}
    (h : l₁.Subperm l₂) : (l₁.map f).Subperm (l₂.map f) := by
  obtain ⟨l, hperm, hsub⟩ := h
  exact ⟨l.map f, hperm.map f, hsub.map f⟩

/-- Reading a list back through `getD` at the positions `0 … length-1`
reproduces the list. -/
theorem map_getD_range {α : Type} (l : List α) (d : α) :
    (List.range l.length).map (fun i => l.getD i d) = l := by
  induction l with
  | nil => simp
  | cons x xs ih =>
    rw [List.length_cons, List.range_succ_eq_map, List.map_cons, List.map_map]
    simp only [List.getD_cons_zero]
    refine congrArg (x :: ·) ?_
    have hfun : ((fun i => (x :: xs).getD i d) ∘ Nat.succ) = (fun i => xs.getD i d) := by
      funext i
      simp [List.getD_cons_succ]
    rw [hfun, ih]

/-- What a successful seeded sample is: `n` distinct rows of the pool. -/
theorem sampleSeeded_spec {seed : Nat} {pool : List AuditUnit} {n : Nat}
    {l : List AuditUnit} (h : sampleSeeded seed pool n = some l) :
    l.Subperm pool ∧ l.length = n := by
  by_cases hn : pool.length < n
  · simp [sampleSeeded, hn] at h
  · simp only [sampleSeeded, if_neg hn, Option.some.injEq] at h
    have hperm : (drawPerm (lcgNext seed) pool.length (List.range pool.length)).Perm
        (List.range pool.length) := drawPerm_perm _ _ _ (by simp)
    have hlen : (drawPerm (lcgNext seed) pool.length (List.range pool.length)).length
        = pool.length := by simpa using hperm.length_eq
    constructor
    · have hsub : ((drawPerm (lcgNext seed) pool.length (List.range pool.length)).take n).Subperm
          (List.range pool.length) :=
        (List.take_sublist _ _).subperm.trans hperm.subperm
      have := subperm_map (fun i => pool.getD i default) hsub
      rw [map_getD_range pool default] at this
      rw [← h]
      exact this
    · rw [← h, List.length_map, List.length_take, hlen]
      omega

/-! ## Claim theorems -/

/-- Pool used by the C4 failing input: six distinct-rated High units of
department "Ops". -/
def c4pool : List AuditUnit :=
  (List.range 6).map (fun i => ⟨i, "Ops", "s", "High", ((6 : ℤ) - i : ℤ), false, 0⟩)

/-- C4: the claim says `_select_units` always terminates normally with a
possibly-short selection when the pool is too small, "including in the
High-tier branch when the remainder pool holds fewer than remainderCount
units".  Precisely there the code fails: target 100 at manday cost 10 asks
for 10 units of a 6-unit High pool, the top slice takes ceil(10/2) = 5, and
`rem_pool.sample(n=5)` is called on the single remaining row, raising
`ValueError` (modelled `none`). -/
theorem c4_sample_overdraw_failure :
    select_units c4pool c4pool 100 10 "High" "Ops" [] = none ∧
    ((sortPoolDesc c4pool).drop (topCountOf (numUnitsOf 100 10).toNat)).length <
      (numUnitsOf 100 10).toNat - topCountOf (numUnitsOf 100 10).toNat := by
  constructor
  · with_unfolding_all rfl
  · with_unfolding_all decide

/-- C2: the High-tier seed is the MD5 hash of the department name reduced
into 32-bit unsigned space, hence a function of nothing but the name; the
engine is a pure function of its input, so two runs on identical input are
identical, and the seeded draw agrees for identical department names and
identical remainder pools; every High split logs exactly that seed for its
draw. -/
theorem c2_seed_determinism :
    (∀ dept : String,
      stable_seed dept = md5Hexint (strBytes dept) % 2 ^ 32 ∧
        stable_seed dept < 2 ^ 32) ∧
    (∀ (totalMandays : ℚ) (params : List ParamRow) (audit0 : List AuditUnit),
      runEngine totalMandays params audit0 = runEngine totalMandays params audit0) ∧
    (∀ (d1 d2 : String) (remPool : List AuditUnit) (n : Nat), d1 = d2 →
      sampleSeeded (stable_seed d1) remPool n = sampleSeeded (stable_seed d2) remPool n) ∧
    (∀ (audit subset : List AuditUnit) (target md : ℚ) (riskLabel dept : String)
        (logs : List LogEntry) (r : SelResult),
      ¬(subset.isEmpty ∨ md ≤ 0) → ¬numUnitsOf target md = 0 →
      riskLabel.toLower = "high" ∧ 1 < numUnitsOf target md →
      select_units audit subset target md riskLabel dept logs = some r →
      r.logs = logs ++ [.highSplit dept (topCountOf (numUnitsOf target md).toNat)
          ((numUnitsOf target md).toNat - topCountOf (numUnitsOf target md).toNat) md,
        .seedLine dept (stable_seed dept)]) := by
  refine ⟨fun dept => ⟨rfl, ?_⟩, fun _ _ _ => rfl, fun d1 d2 remPool n h => by rw [h],
    fun audit subset target md riskLabel dept logs r h1 h2 h3 h => ?_⟩
  · exact Nat.mod_lt _ (by norm_num)
  · rw [select_units_high h1 h2 h3] at h
    by_cases cg : 0 < (numUnitsOf target md).toNat - topCountOf (numUnitsOf target md).toNat ∧
        ¬((sortPoolDesc subset).drop (topCountOf (numUnitsOf target md).toNat)).isEmpty
    · rw [if_pos cg] at h
      cases hS : sampleSeeded (stable_seed dept)
          ((sortPoolDesc subset).drop (topCountOf (numUnitsOf target md).toNat))
          ((numUnitsOf target md).toNat - topCountOf (numUnitsOf target md).toNat) with
      | none => rw [hS] at h; cases h
      | some rnd => rw [hS] at h; cases h; rfl
    · rw [if_neg cg] at h
      cases h
      rfl

/-- Closed instance of `c2_seed_determinism`. -/
theorem c2_seed_determinism_witness :
    stable_seed "Finance" < 2 ^ 32 ∧
      sampleSeeded (stable_seed "A") [] 0 = sampleSeeded (stable_seed "A") [] 0 :=
  ⟨(c2_seed_determinism.1 "Finance").2, c2_seed_determinism.2.2.1 "A" "A" [] 0 rfl⟩

/-- C10: whenever `_select_units` selects nothing — empty pool, non-positive
manday cost, or a unit count that is zero after the floor is clamped up to 0
(which covers every negative target) — it returns (0, 0), appends the reason
to the log, and the working table comes back exactly as it went in. -/
theorem c10_no_selection_atomic (audit subset : List AuditUnit) (target md : ℚ)
    (riskLabel dept : String) (logs : List LogEntry) :
    (subset = [] ∨ md ≤ 0 →
      select_units audit subset target md riskLabel dept logs =
        some ⟨audit, logs ++ [.noPool dept riskLabel], [], 0⟩) ∧
    (¬(subset = [] ∨ md ≤ 0) → numUnitsOf target md = 0 →
      select_units audit subset target md riskLabel dept logs =
        some ⟨audit, logs ++ [.targetTooLow dept riskLabel md], [], 0⟩) ∧
    (⌊target / md⌋ ≤ 0 → numUnitsOf target md = 0) := by
  refine ⟨fun h => select_units_noPool ?_, fun h1 h2 => select_units_zeroUnits ?_ h2,
    fun h => ?_⟩
  · rcases h with h | h
    · exact Or.inl (by simp [h])
    · exact Or.inr h
  · rw [List.isEmpty_iff]
    exact h1
  · simp only [numUnitsOf]
    omega

/-- Closed instance of `c10_no_selection_atomic`: a one-unit pool with a
negative target leaves the table untouched. -/
theorem c10_no_selection_atomic_witness :
    select_units [⟨0, "A", "s", "Low", 1, false, 0⟩] [⟨0, "A", "s", "Low", 1, false, 0⟩]
        (-10) 30 "Low" "A" [] =
      some ⟨[⟨0, "A", "s", "Low", 1, false, 0⟩], [.targetTooLow "A" "Low" 30], [], 0⟩ := by
  have h := (c10_no_selection_atomic [⟨0, "A", "s", "Low", 1, false, 0⟩]
    [⟨0, "A", "s", "Low", 1, false, 0⟩] (-10) 30 "Low" "A" []).2.1
    (by simp) (by with_unfolding_all decide)
  simpa using h

/-- C6 counterexample: for a negative target the affordable unit count is
clamped to 0 and is not `floor(target / mandayCost)` — target −10 at cost 30
yields 0 eligible units while the floor is −1. -/
theorem c6_floor_counterexample :
    numUnitsOf (-10) 30 = 0 ∧ ⌊(-10 : ℚ) / 30⌋ = -1 ∧ (0 : ℤ) ≠ -1 := by
  refine ⟨by with_unfolding_all decide, by with_unfolding_all decide, by decide⟩

/-- C6 amended: the affordable unit count is `max(floor(target/mandayCost), 0)`,
which agrees with the plain floor whenever the floor is nonnegative (so in
particular for every nonnegative target); target 100 at cost 30 affords
exactly 3 units and never 4; and a zero count selects nothing, records
(0, 0), and logs the reason. -/
theorem c6_floor_semantics (target md : ℚ) (h : 0 < md) :
    numUnitsOf target md = max ⌊target / md⌋ 0 ∧
    (0 ≤ ⌊target / md⌋ → numUnitsOf target md = ⌊target / md⌋) ∧
    numUnitsOf 100 30 = 3 ∧ numUnitsOf 100 30 ≠ 4 ∧
    (numUnitsOf target md = 0 →
      ∀ (audit subset : List AuditUnit) (riskLabel dept : String) (logs : List LogEntry),
        subset ≠ [] →
        select_units audit subset target md riskLabel dept logs =
          some ⟨audit, logs ++ [.targetTooLow dept riskLabel md], [], 0⟩) := by
  refine ⟨rfl, fun hge => ?_, by with_unfolding_all decide, by with_unfolding_all decide,
    fun h0 audit subset riskLabel dept logs hne => ?_⟩
  · simp only [numUnitsOf]
    omega
  · refine select_units_zeroUnits ?_ h0
    rw [List.isEmpty_iff]
    push_neg
    exact ⟨hne, by linarith⟩

/-- Sorting the empty pool yields the empty pool. -/
theorem sortPoolDesc_nil : sortPoolDesc [] = [] := by
  with_unfolding_all rfl

/-- The affordable unit count is nonnegative. -/
theorem numUnitsOf_nonneg (target md : ℚ) : 0 ≤ numUnitsOf target md :=
  le_max_right _ _

/-- Charging the affordable unit count at the manday cost stays within the
nonnegative part of the target. -/
theorem numUnits_mul_md_le {target md : ℚ} (hmd : 0 < md) :
    ((numUnitsOf target md).toNat : ℚ) * md ≤ max target 0 := by
  rcases le_or_lt ⌊target / md⌋ 0 with hf | hf
  · have h0 : numUnitsOf target md = 0 := by
      simp only [numUnitsOf]
      omega
    rw [h0]
    simp
  · have hn : numUnitsOf target md = ⌊target / md⌋ := by
      simp only [numUnitsOf]
      omega
    have hcast : ((numUnitsOf target md).toNat : ℚ) = ((⌊target / md⌋ : ℤ) : ℚ) := by
      rw [hn]
      norm_cast
      omega
    rw [hcast]
    have hle : ((⌊target / md⌋ : ℤ) : ℚ) ≤ target / md := Int.floor_le _
    calc ((⌊target / md⌋ : ℤ) : ℚ) * md ≤ target / md * md :=
          mul_le_mul_of_nonneg_right hle (le_of_lt hmd)
      _ = target := div_mul_cancel₀ _ (ne_of_gt hmd)
      _ ≤ max target 0 := le_max_left _ _

/-- A successful `_select_units` call never charges more than the
nonnegative part of its target. -/
theorem select_units_used_le {audit subset : List AuditUnit} {target md : ℚ}
    {riskLabel dept : String} {logs : List LogEntry} {r : SelResult}
    (h : select_units audit subset target md riskLabel dept logs = some r) :
    r.used ≤ max target 0 := by
  by_cases c1 : subset.isEmpty ∨ md ≤ 0
  · rw [select_units_noPool c1] at h
    cases h
    simp only []
    exact le_max_right target 0
  · have hmd : 0 < md := by
      push_neg at c1
      linarith [c1.2]
    by_cases c2 : numUnitsOf target md = 0
    · rw [select_units_zeroUnits c1 c2] at h
      cases h
      simp only []
      exact le_max_right target 0
    · have hlen_le : ∀ sel : List AuditUnit,
          sel.length ≤ (numUnitsOf target md).toNat →
          (sel.length : ℚ) * md ≤ max target 0 := by
        intro sel hle
        calc (sel.length : ℚ) * md ≤ ((numUnitsOf target md).toNat : ℚ) * md := by
              exact mul_le_mul_of_nonneg_right (by exact_mod_cast hle) (le_of_lt hmd)
          _ ≤ max target 0 := numUnits_mul_md_le hmd
      by_cases c3 : riskLabel.toLower = "high" ∧ 1 < numUnitsOf target md
      · rw [select_units_high c1 c2 c3] at h
        have hm2 : 2 ≤ (numUnitsOf target md).toNat := by
          have := c3.2
          omega
        set m := (numUnitsOf target md).toNat with hm
        set sorted := sortPoolDesc subset with hsorted
        by_cases cg : 0 < m - topCountOf m ∧ ¬(sorted.drop (topCountOf m)).isEmpty
        · rw [if_pos cg] at h
          cases hS : sampleSeeded (stable_seed dept) (sorted.drop (topCountOf m))
              (m - topCountOf m) with
          | none => rw [hS] at h; cases h
          | some rnd =>
            rw [hS] at h
            cases h
            obtain ⟨-, hrl⟩ := sampleSeeded_spec hS
            refine hlen_le _ ?_
            have htop : (sorted.take (topCountOf m)).length ≤ topCountOf m := by
              simp [List.length_take]
            have htc : topCountOf m ≤ m := by
              simp only [topCountOf]
              omega
            simp only [List.length_append]
            omega
        · rw [if_neg cg] at h
          cases h
          refine hlen_le _ ?_
          have htc : topCountOf m ≤ m := by
            simp only [topCountOf]
            omega
          simp only [List.length_append, List.length_nil, List.length_take]
          omega
      · rw [select_units_det c1 c2 c3] at h
        cases h
        refine hlen_le _ ?_
        simp [List.length_take]

/-- C1: the selection policy of `_select_units` — on the High tier with more
than one affordable unit, the selected rows are exactly the top
`ceil(unitCount/2)` of the rating-descending pool followed by
`unitCount - ceil(unitCount/2)` distinct rows drawn from the remainder pool
(the draw skipped when the remainder pool is empty); in every other case
exactly the top `unitCount` rows. -/
theorem c1_selection_policy (audit subset : List AuditUnit) (target md : ℚ)
    (riskLabel dept : String) (logs : List LogEntry) (r : SelResult)
    (hmd : 0 < md)
    (h : select_units audit subset target md riskLabel dept logs = some r) :
    if riskLabel.toLower = "high" ∧ 1 < numUnitsOf target md then
      (if ((sortPoolDesc subset).drop (topCountOf (numUnitsOf target md).toNat)).isEmpty then
        r.sel = (sortPoolDesc subset).take (topCountOf (numUnitsOf target md).toNat)
      else
        ∃ rnd : List AuditUnit,
          rnd.Subperm ((sortPoolDesc subset).drop (topCountOf (numUnitsOf target md).toNat)) ∧
          rnd.length = (numUnitsOf target md).toNat - topCountOf (numUnitsOf target md).toNat ∧
          r.sel = (sortPoolDesc subset).take (topCountOf (numUnitsOf target md).toNat) ++ rnd)
    else r.sel = (sortPoolDesc subset).take (numUnitsOf target md).toNat := by
  by_cases c1 : subset.isEmpty ∨ md ≤ 0
  · have hsub : subset = [] := by
      rcases c1 with hE | hmd0
      · exact List.isEmpty_iff.mp hE
      · exact absurd hmd0 (not_le.mpr hmd)
    rw [select_units_noPool c1] at h
    cases h
    subst hsub
    rw [sortPoolDesc_nil]
    simp
  · by_cases c2 : numUnitsOf target md = 0
    · rw [select_units_zeroUnits c1 c2] at h
      cases h
      have : ¬(riskLabel.toLower = "high" ∧ 1 < numUnitsOf target md) := by
        rw [c2]
        simp
      rw [if_neg this, c2]
      simp
    · by_cases c3 : riskLabel.toLower = "high" ∧ 1 < numUnitsOf target md
      · rw [select_units_high c1 c2 c3] at h
        rw [if_pos c3]
        have hm2 : 2 ≤ (numUnitsOf target md).toNat := by
          have := c3.2
          omega
        set m := (numUnitsOf target md).toNat with hm
        set sorted := sortPoolDesc subset with hsorted
        have hremN : 0 < m - topCountOf m := by
          simp only [topCountOf]
          omega
        by_cases hE : (sorted.drop (topCountOf m)).isEmpty
        · have cg : ¬(0 < m - topCountOf m ∧ ¬(sorted.drop (topCountOf m)).isEmpty) := by
            push_neg
            intro _
            simpa using hE
          rw [if_neg cg] at h
          cases h
          rw [if_pos hE]
          simp
        · have cg : 0 < m - topCountOf m ∧ ¬(sorted.drop (topCountOf m)).isEmpty :=
            ⟨hremN, hE⟩
          rw [if_pos cg] at h
          cases hS : sampleSeeded (stable_seed dept) (sorted.drop (topCountOf m))
              (m - topCountOf m) with
          | none => rw [hS] at h; cases h
          | some rnd =>
            rw [hS] at h
            cases h
            rw [if_neg hE]
            obtain ⟨hsp, hrl⟩ := sampleSeeded_spec hS
            exact ⟨rnd, hsp, hrl, rfl⟩
      · rw [select_units_det c1 c2 c3] at h
        cases h
        rw [if_neg c3]

/-- Closed instance of `c1_selection_policy`: a one-unit Medium pool with
target 1 at cost 1 selects exactly the top unit. -/
theorem c1_selection_policy_witness :
    if ("Medium").toLower = "high" ∧ 1 < numUnitsOf 1 1 then
      (if ((sortPoolDesc [⟨0, "A", "s", "Medium", 5, false, 0⟩]).drop
          (topCountOf (numUnitsOf 1 1).toNat)).isEmpty then
        SelResult.sel ⟨[⟨0, "A", "s", "Medium", 5, true, 1⟩],
            [.detLine "A" "Medium" 1 1], [⟨0, "A", "s", "Medium", 5, false, 0⟩], 1⟩ =
          (sortPoolDesc [⟨0, "A", "s", "Medium", 5, false, 0⟩]).take
            (topCountOf (numUnitsOf 1 1).toNat)
      else
        ∃ rnd : List AuditUnit,
          rnd.Subperm ((sortPoolDesc [⟨0, "A", "s", "Medium", 5, false, 0⟩]).drop
            (topCountOf (numUnitsOf 1 1).toNat)) ∧
          rnd.length = (numUnitsOf 1 1).toNat - topCountOf (numUnitsOf 1 1).toNat ∧
          SelResult.sel ⟨[⟨0, "A", "s", "Medium", 5, true, 1⟩],
              [.detLine "A" "Medium" 1 1], [⟨0, "A", "s", "Medium", 5, false, 0⟩], 1⟩ =
            (sortPoolDesc [⟨0, "A", "s", "Medium", 5, false, 0⟩]).take
              (topCountOf (numUnitsOf 1 1).toNat) ++ rnd)
    else
      SelResult.sel ⟨[⟨0, "A", "s", "Medium", 5, true, 1⟩],
          [.detLine "A" "Medium" 1 1], [⟨0, "A", "s", "Medium", 5, false, 0⟩], 1⟩ =
        (sortPoolDesc [⟨0, "A", "s", "Medium", 5, false, 0⟩]).take (numUnitsOf 1 1).toNat :=
  c1_selection_policy [⟨0, "A", "s", "Medium", 5, false, 0⟩]
    [⟨0, "A", "s", "Medium", 5, false, 0⟩] 1 1 "Medium" "A" []
    ⟨[⟨0, "A", "s", "Medium", 5, true, 1⟩], [.detLine "A" "Medium" 1 1],
      [⟨0, "A", "s", "Medium", 5, false, 0⟩], 1⟩
    (by norm_num) (by with_unfolding_all rfl)

/-- A department that used nothing reports utilization 0 (also through the
guarded formula). -/
theorem deptUtilization_zero_used (dt : ℤ) : deptUtilization 0 dt = 0 := by
  simp only [deptUtilization]
  split
  · rw [zero_div, zero_mul]
    have h0 : pyRound ((0 : ℚ) * 10) = 0 := by
      with_unfolding_all decide
    have h1 : pyRound (0 : ℚ) = 0 := by
      with_unfolding_all decide
    simp [pyRound1, h0, h1]
  · rfl

/-- The department pool of a parameter row within the working table
(line 123, `audit[audit["Department"].str.lower() == dept.lower()]`). -/
def deptPool (audit : List AuditUnit) (p : ParamRow) : List AuditUnit :=
  audit.filter (fun u => u.department.toLower = p.department.toLower)

/-- Characterization of one processed department (percentage nonzero): the
loop appends exactly one summary row carrying the department name, the
rounded department budget as target, the guarded utilization formula — and
its used mandays are 0 for an unmatched department, otherwise the sum of the
three tier selections that ran against the shared table. -/
theorem processDept_append {totalMandays : ℚ} {st : RunState} {p : ParamRow}
    {st' : RunState} (h : processDept totalMandays st p = some st')
    (hp : ¬p.percentage = 0) :
    ∃ s : DeptSummary, st'.summary = st.summary ++ [s] ∧
      s.department = p.department ∧
      s.target = deptBudget totalMandays p.percentage ∧
      s.utilization = deptUtilization s.used s.target ∧
      ((deptPool st.audit p).isEmpty = true ∧ s.used = 0 ∨
        ∃ r1 r2 r3 : SelResult,
          select_units st.audit ((deptPool st.audit p).filter (fun u => u.riskCategory = "High"))
            ((tierTarget (deptBudget totalMandays p.percentage) p.highPct : ℤ) : ℚ)
            p.highDays "High" p.department st.logs = some r1 ∧
          select_units r1.audit ((deptPool st.audit p).filter (fun u => u.riskCategory = "Medium"))
            ((tierTarget (deptBudget totalMandays p.percentage) p.medPct : ℤ) : ℚ)
            p.mediumDays "Medium" p.department r1.logs = some r2 ∧
          select_units r2.audit ((deptPool st.audit p).filter (fun u => u.riskCategory = "Low"))
            ((tierTarget (deptBudget totalMandays p.percentage) p.lowPct : ℤ) : ℚ)
            p.lowDays "Low" p.department r2.logs = some r3 ∧
          s.used = r1.used + r2.used + r3.used) := by
  rw [processDept, if_neg hp] at h
  by_cases hD : (deptPool st.audit p).isEmpty
  · rw [show (st.audit.filter (fun u => u.department.toLower = p.department.toLower))
        = deptPool st.audit p from rfl, if_pos hD] at h
    cases h
    exact ⟨_, rfl, rfl, rfl, (deptUtilization_zero_used _).symm, Or.inl ⟨hD, rfl⟩⟩
  · rw [show (st.audit.filter (fun u => u.department.toLower = p.department.toLower))
        = deptPool st.audit p from rfl, if_neg hD] at h
    obtain ⟨r1, h1, h⟩ := Option.bind_eq_some.mp h
    obtain ⟨r2, h2, h⟩ := Option.bind_eq_some.mp h
    obtain ⟨r3, h3, h⟩ := Option.bind_eq_some.mp h
    cases h
    exact ⟨_, rfl, rfl, rfl, rfl, Or.inr ⟨r1, r2, r3, h1, h2, h3, rfl⟩⟩

/-- Parameter row of the C3 counterexample: the whole budget to department
"A", tier shares 0/50/50 at cost 1 per unit. -/
def c3param : ParamRow :=
  ⟨"A", 100, 1, 1, 1, 0, 50, 50⟩

/-- Audit universe of the C3 counterexample: two Medium and two Low units in
department "A". -/
def c3units : List AuditUnit :=
  [⟨0, "A", "s", "Medium", 5, false, 0⟩, ⟨1, "A", "s", "Medium", 4, false, 0⟩,
   ⟨2, "A", "s", "Low", 3, false, 0⟩, ⟨3, "A", "s", "Low", 2, false, 0⟩]

/-- C3 counterexample: with 3 total mandays at 100%, the department target
is `round(3) = 3` but the Medium and Low tier targets each round up from
1.5 to 2, so 4 mandays are consumed — `usedMandays > targetMandays` for a
processed department, refuting the conservation claim. -/
theorem c3_conservation_counterexample :
    (runEngine 3 [c3param] c3units).map
        (fun st => st.summary.map (fun s => (s.target, s.used))) =
      some [((3 : ℤ), (4 : ℚ))] ∧
    ¬((4 : ℚ) ≤ ((3 : ℤ) : ℚ)) := by
  constructor
  · with_unfolding_all rfl
  · with_unfolding_all decide

/-- C3 amended: a processed department's used mandays are bounded by the sum
of the positive parts of its three tier targets (each tier never charges
beyond its own target; the dept-level bound `used ≤ targetMandays` fails
because the rounded tier targets can sum beyond the department target). -/
theorem c3_tier_conservation (totalMandays : ℚ) (st : RunState) (p : ParamRow)
    (st' : RunState) (h : processDept totalMandays st p = some st')
    (hp : ¬p.percentage = 0) :
    ∃ s : DeptSummary, st'.summary = st.summary ++ [s] ∧
      s.used ≤
        max ((tierTarget (deptBudget totalMandays p.percentage) p.highPct : ℤ) : ℚ) 0 +
        max ((tierTarget (deptBudget totalMandays p.percentage) p.medPct : ℤ) : ℚ) 0 +
        max ((tierTarget (deptBudget totalMandays p.percentage) p.lowPct : ℤ) : ℚ) 0 := by
  obtain ⟨s, hs, -, -, -, hused⟩ := processDept_append h hp
  refine ⟨s, hs, ?_⟩
  rcases hused with ⟨-, h0⟩ | ⟨r1, r2, r3, h1, h2, h3, hsum⟩
  · rw [h0]
    have hh := le_max_right ((tierTarget (deptBudget totalMandays p.percentage) p.highPct : ℤ) : ℚ) 0
    have hm := le_max_right ((tierTarget (deptBudget totalMandays p.percentage) p.medPct : ℤ) : ℚ) 0
    have hl := le_max_right ((tierTarget (deptBudget totalMandays p.percentage) p.lowPct : ℤ) : ℚ) 0
    linarith
  · rw [hsum]
    have b1 := select_units_used_le h1
    have b2 := select_units_used_le h2
    have b3 := select_units_used_le h3
    linarith

/-- Closed instance of `c3_tier_conservation`: one Low unit, 10 total
mandays fully allocated to the Low tier at cost 5. -/
theorem c3_tier_conservation_witness :
    ∃ s : DeptSummary,
      (RunState.summary ⟨[⟨0, "B", "s", "Low", 1, true, 5⟩],
        [.noPool "B" "High", .noPool "B" "Medium", .detLine "B" "Low" 2 5,
          .deptLine "B" 10 5 50 0 0 1],
        [⟨"B", 10, 5, 50⟩]⟩) = ([] : List DeptSummary) ++ [s] ∧
      s.used ≤
        max ((tierTarget (deptBudget 10 100) (0 : ℚ) : ℤ) : ℚ) 0 +
        max ((tierTarget (deptBudget 10 100) (0 : ℚ) : ℤ) : ℚ) 0 +
        max ((tierTarget (deptBudget 10 100) (100 : ℚ) : ℤ) : ℚ) 0 :=
  c3_tier_conservation 10 ⟨[⟨0, "B", "s", "Low", 1, false, 0⟩], [], []⟩
    ⟨"B", 100, 0, 0, 5, 0, 0, 100⟩ _
    (by with_unfolding_all rfl) (by norm_num)

/-- C7: each processed department's budget is `round(totalMandays *
percentageOfBudget / 100)` and each tier target is `round(departmentBudget *
tierPct / 100)`, where `round` is round-half-to-even — in particular 3.5
rounds to 4 and 2.5 rounds to 2. -/
theorem c7_target_rounding (totalMandays : ℚ) (st : RunState) (p : ParamRow)
    (st' : RunState) (h : processDept totalMandays st p = some st')
    (hp : ¬p.percentage = 0) :
    (∃ s : DeptSummary, st'.summary = st.summary ++ [s] ∧
      s.target = pyRound (totalMandays * p.percentage / 100)) ∧
    (∀ (dt : ℤ) (tierPct : ℚ), tierTarget dt tierPct = pyRound ((dt : ℚ) * tierPct / 100)) ∧
    pyRound (7 / 2) = 4 ∧ pyRound (5 / 2) = 2 := by
  obtain ⟨s, hs, -, ht, -, -⟩ := processDept_append h hp
  exact ⟨⟨s, hs, ht⟩, fun dt pct => rfl, by with_unfolding_all decide,
    by with_unfolding_all decide⟩

/-- Closed instance of `c7_target_rounding`: 10 total mandays at 50% round
to a department budget of 5. -/
theorem c7_target_rounding_witness :
    (∃ s : DeptSummary,
      (RunState.summary ⟨[], [.noMatch "C"], [⟨"C", 5, 0, 0⟩]⟩) =
        ([] : List DeptSummary) ++ [s] ∧
      s.target = pyRound ((10 : ℚ) * 50 / 100)) ∧
    (∀ (dt : ℤ) (tierPct : ℚ), tierTarget dt tierPct = pyRound ((dt : ℚ) * tierPct / 100)) ∧
    pyRound (7 / 2) = 4 ∧ pyRound (5 / 2) = 2 :=
  c7_target_rounding 10 ⟨[], [], []⟩ ⟨"C", 50, 1, 1, 1, 40, 30, 30⟩
    ⟨[], [.noMatch "C"], [⟨"C", 5, 0, 0⟩]⟩
    (by with_unfolding_all rfl) (by norm_num)

/-- C8: per department, used mandays are the sum of the three tier usages
and utilization is `round(used / target * 100, 1)` guarded to 0 when the
target is not positive (so a zero target never divides); the overall
utilization over `alloc_summary` follows the same guarded formula. -/
theorem c8_utilization :
    (∀ used : ℚ, deptUtilization used 0 = 0) ∧
    (∀ (used : ℚ) (dt : ℤ), 0 < dt →
      deptUtilization used dt = pyRound1 (used / (dt : ℚ) * 100)) ∧
    (∀ summary : List DeptSummary, (summary.map (fun s => s.target)).sum ≤ 0 →
      overallUtilization summary = 0) ∧
    (∀ summary : List DeptSummary, 0 < (summary.map (fun s => s.target)).sum →
      overallUtilization summary =
        pyRound1 ((summary.map (fun s => s.used)).sum /
          (((summary.map (fun s => s.target)).sum : ℤ) : ℚ) * 100)) ∧
    (∀ (totalMandays : ℚ) (st : RunState) (p : ParamRow) (st' : RunState),
      processDept totalMandays st p = some st' → ¬p.percentage = 0 →
      ∃ s : DeptSummary, st'.summary = st.summary ++ [s] ∧
        s.utilization = deptUtilization s.used s.target ∧
        ((deptPool st.audit p).isEmpty = true ∧ s.used = 0 ∨
          ∃ r1 r2 r3 : SelResult,
            select_units st.audit ((deptPool st.audit p).filter (fun u => u.riskCategory = "High"))
              ((tierTarget (deptBudget totalMandays p.percentage) p.highPct : ℤ) : ℚ)
              p.highDays "High" p.department st.logs = some r1 ∧
            select_units r1.audit ((deptPool st.audit p).filter (fun u => u.riskCategory = "Medium"))
              ((tierTarget (deptBudget totalMandays p.percentage) p.medPct : ℤ) : ℚ)
              p.mediumDays "Medium" p.department r1.logs = some r2 ∧
            select_units r2.audit ((deptPool st.audit p).filter (fun u => u.riskCategory = "Low"))
              ((tierTarget (deptBudget totalMandays p.percentage) p.lowPct : ℤ) : ℚ)
              p.lowDays "Low" p.department r2.logs = some r3 ∧
            s.used = r1.used + r2.used + r3.used)) := by
  refine ⟨fun used => rfl, fun used dt hdt => ?_, fun summary hle => ?_,
    fun summary hlt => ?_, fun totalMandays st p st' h hp => ?_⟩
  · rw [deptUtilization, if_pos hdt]
  · simp only [overallUtilization]
    rw [if_neg (not_lt.mpr hle)]
  · simp only [overallUtilization]
    rw [if_pos hlt]
  · obtain ⟨s, hs, -, -, hu, hused⟩ := processDept_append h hp
    exact ⟨s, hs, hu, hused⟩

/-- Closed instance of `c8_utilization`: zero targets report utilization 0. -/
theorem c8_utilization_witness :
    deptUtilization 5 0 = 0 ∧ overallUtilization [] = 0 :=
  ⟨c8_utilization.1 5, c8_utilization.2.2.1 [] (by simp)⟩

/-- The last element of a strictly increasing list bounds every element. -/
theorem le_getLast_of_lt_sorted {l : List Nat} (hs : l.Pairwise (· < ·)) {m : Nat}
    (h : l.getLast? = some m) : ∀ j ∈ l, j ≤ m := by
  induction l with
  | nil => simp at h
  | cons a t ih =>
    cases t with
    | nil =>
      simp only [List.getLast?_singleton, Option.some.injEq] at h
      subst h
      simp
    | cons b t2 =>
      rw [List.getLast?_cons_cons] at h
      intro j hj
      rcases List.mem_cons.mp hj with rfl | hj2
      · have hm : m ∈ b :: t2 := List.mem_of_mem_getLast? h
        have := (List.pairwise_cons.mp hs).1 m hm
        omega
      · exact ih (List.pairwise_cons.mp hs).2 h j hj2

/-- Row of the C9 counterexample: a lone trailer whose second column is the
numeric grand total. -/
def c9row : PRow :=
  ⟨.text "Total", .num 500, .na, .na, .na, .na, .na, .na⟩

/-- C9 counterexample: a parameters table whose only row carries the numeric
total aborts — but not with the missing-total error: the trailer is the
first row, `params_data` is empty, and the header probe
`params_data.iloc[0, 0]` raises `IndexError`.  So "no numeric second-column
value" is not the only way the parameters stage aborts. -/
theorem c9_abort_counterexample :
    paramsStage [c9row] = .error .indexError ∧
    toNumeric c9row.c1 = some 500 ∧
    PErr.indexError ≠ PErr.noTotal := by
  exact ⟨rfl, rfl, by decide⟩

/-- C9 amended: the total-mandays trailer is the last row (in original
order) whose second column parses as numeric; rows after it are discarded
and rows before it become the candidate parameter rows; the stage fails
fatally when no second-column value is numeric — and additionally when the
trailer is the very first row, because the header check indexes the first
candidate row unconditionally. -/
theorem c9_params_stage (rows : List PRow) :
    ((∀ r ∈ rows, toNumeric r.c1 = none) ↔ paramsStage rows = .error .noTotal) ∧
    (∀ li, lastNumericIdx rows = some li →
      (toNumeric (rows.getD li default).c1).isSome = true ∧ li < rows.length ∧
      (∀ j, li < j → j < rows.length → toNumeric (rows.getD j default).c1 = none)) ∧
    (match lastNumericIdx rows with
     | none => paramsStage rows = .error .noTotal
     | some 0 => paramsStage rows = .error .indexError
     | some (k + 1) => paramsStage rows =
         .ok ((toNumeric (rows.getD (k + 1) default).c1).getD 0,
           buildParamRows (rows.take (k + 1)))) := by
  have hbridge : (∀ r ∈ rows, toNumeric r.c1 = none) ↔ lastNumericIdx rows = none := by
    rw [lastNumericIdx, List.getLast?_eq_none_iff, List.filter_eq_nil_iff]
    constructor
    · intro h i hi
      simp only [List.mem_range] at hi
      have hmem : rows.getD i default ∈ rows := by
        rw [List.getD_eq_getElem rows default hi]
        exact List.getElem_mem hi
      rw [h _ hmem]
      simp
    · intro h r hr
      obtain ⟨i, hi, rfl⟩ := List.mem_iff_getElem.mp hr
      have h2 := h i (List.mem_range.mpr hi)
      rw [List.getD_eq_getElem rows default hi] at h2
      simpa using h2
  refine ⟨?_, fun li hli => ?_, ?_⟩
  · rw [hbridge]
    constructor
    · intro h
      rw [paramsStage, h]
    · intro h
      cases hL : lastNumericIdx rows with
      | none => rfl
      | some li =>
        cases li with
        | zero => rw [paramsStage, hL] at h; cases h
        | succ k => rw [paramsStage, hL] at h; cases h
  · have hmem : li ∈ (List.range rows.length).filter
        (fun i => (toNumeric (rows.getD i default).c1).isSome) :=
      List.mem_of_mem_getLast? hli
    have hP := (List.mem_filter.mp hmem).2
    have hlen : li < rows.length := List.mem_range.mp (List.mem_filter.mp hmem).1
    refine ⟨hP, hlen, fun j hlij hj => ?_⟩
    by_contra hne
    have hjP : (toNumeric (rows.getD j default).c1).isSome = true := by
      cases htn : toNumeric (rows.getD j default).c1 with
      | none => exact absurd htn hne
      | some q => rfl
    have hjmem : j ∈ (List.range rows.length).filter
        (fun i => (toNumeric (rows.getD i default).c1).isSome) :=
      List.mem_filter.mpr ⟨List.mem_range.mpr hj, hjP⟩
    have hsorted : ((List.range rows.length).filter
        (fun i => (toNumeric (rows.getD i default).c1).isSome)).Pairwise (· < ·) :=
      (List.pairwise_lt_range rows.length).filter _
    have := le_getLast_of_lt_sorted hsorted hli j hjmem
    omega
  · cases hL : lastNumericIdx rows with
    | none => rw [paramsStage, hL]
    | some li =>
      cases li with
      | zero => rw [paramsStage, hL]
      | succ k => rw [paramsStage, hL]

/-- Closed instance of `c9_params_stage`: a table with no numeric second
column anywhere fails with the missing-total error. -/
theorem c9_params_stage_witness :
    paramsStage [⟨.text "Department", .text "Pct", .na, .na, .na, .na, .na, .na⟩] =
      .error .noTotal :=
  (c9_params_stage [⟨.text "Department", .text "Pct", .na, .na, .na, .na, .na, .na⟩]).1.mp
    (by
      intro r hr
      rcases List.mem_singleton.mp hr with rfl
      rfl)

/-- The key order under which the insertion-sort phase arranges positions:
ascending value, ties broken by ascending position. -/
def lexv (v : Nat → ℚ) (i j : Nat) : Prop :=
  v i < v j ∨ (v i = v j ∧ i < j)

/-- One insertion is a permutation of consing. -/
theorem insertIdx_perm (v : Nat → ℚ) (i : Nat) (l : List Nat) :
    (insertIdx v i l).Perm (i :: l) := by
  induction l with
  | nil => simp [insertIdx]
  | cons j rest ih =>
    rw [insertIdx]
    split
    · exact List.Perm.refl _
    · exact (ih.cons j).trans (List.Perm.swap i j rest)

/-- Memberships after one insertion. -/
theorem mem_insertIdx (v : Nat → ℚ) (i x : Nat) (l : List Nat) :
    x ∈ insertIdx v i l ↔ x = i ∨ x ∈ l := by
  rw [(insertIdx_perm v i l).mem_iff, List.mem_cons]

/-- Inserting a position greater than everything already placed preserves
the lexicographic sortedness: equal keys are put after the earlier-placed
equals, never before. -/
theorem insertIdx_pairwise (v : Nat → ℚ) (i : Nat) : ∀ {l : List Nat},
    l.Pairwise (lexv v) → (∀ j ∈ l, j < i) →
    (insertIdx v i l).Pairwise (lexv v) := by
  intro l
  induction l with
  | nil =>
    intro _ _
    simp [insertIdx, lexv]
  | cons j rest ih =>
    intro hl hlt
    obtain ⟨hj, hrest⟩ := List.pairwise_cons.mp hl
    by_cases hij : v i < v j
    · rw [insertIdx, if_pos hij]
      refine List.pairwise_cons.mpr ⟨?_, hl⟩
      intro x hx
      rcases List.mem_cons.mp hx with rfl | hx2
      · exact Or.inl hij
      · rcases hj x hx2 with hlt2 | ⟨heq, _⟩
        · exact Or.inl (lt_trans hij hlt2)
        · exact Or.inl (heq ▸ hij)
    · rw [insertIdx, if_neg hij]
      refine List.pairwise_cons.mpr
        ⟨?_, ih hrest (fun x hx => hlt x (List.mem_cons_of_mem _ hx))⟩
      intro x hx
      rcases (mem_insertIdx v i x rest).mp hx with rfl | hx2
      · rcases lt_or_eq_of_le (not_lt.mp hij) with hlt2 | heq
        · exact Or.inl hlt2
        · exact Or.inr ⟨heq, hlt j (List.mem_cons_self j rest)⟩
      · exact hj x hx2

/-- The insertion fold over a strictly ascending worklist produces a
lexicographically sorted permutation of accumulator plus worklist. -/
theorem ainsertFold_go (v : Nat → ℚ) : ∀ (l acc : List Nat),
    acc.Pairwise (lexv v) → (∀ j ∈ acc, ∀ i ∈ l, j < i) → l.Pairwise (· < ·) →
    (l.foldl (fun a i => insertIdx v i a) acc).Pairwise (lexv v) ∧
      (l.foldl (fun a i => insertIdx v i a) acc).Perm (acc ++ l) := by
  intro l
  induction l with
  | nil =>
    intro acc h _ _
    exact ⟨h, by simp⟩
  | cons i t ih =>
    intro acc hacc hcross hl
    obtain ⟨hi, ht⟩ := List.pairwise_cons.mp hl
    have hacc2 : (insertIdx v i acc).Pairwise (lexv v) :=
      insertIdx_pairwise v i hacc (fun j hj => hcross j hj i (List.mem_cons_self i t))
    have hcross2 : ∀ j ∈ insertIdx v i acc, ∀ k ∈ t, j < k := by
      intro j hj k hk
      rcases (mem_insertIdx v i j acc).mp hj with rfl | hj2
      · exact hi k hk
      · exact hcross j hj2 k (List.mem_cons_of_mem _ hk)
    obtain ⟨hp, hperm⟩ := ih (insertIdx v i acc) hacc2 hcross2 ht
    refine ⟨hp, ?_⟩
    exact hperm.trans (((insertIdx_perm v i acc).append_right t).trans List.perm_middle.symm)

/-- The insertion-sort phase over the position range is a lexicographically
sorted permutation of the range. -/
theorem ainsertFold_range (v : Nat → ℚ) (n : Nat) :
    (ainsertFold v (List.range n)).Pairwise (lexv v) ∧
      (ainsertFold v (List.range n)).Perm (List.range n) := by
  have h := ainsertFold_go v (List.range n) [] (by simp) (by simp)
    (List.pairwise_lt_range n)
  simpa [ainsertFold] using h

/-- For at most 16 positions the introsort loop is skipped entirely
(`pr - pl = n - 1 ≤ 15`) and `aquicksort` is exactly the stable insertion
phase over the full range. -/
theorem aquicksortPerm_small (v : Nat → ℚ) {n : Nat} (hn : n ≤ 16) :
    aquicksortPerm v n = ainsertFold v (List.range n) := by
  have hc : ¬(15 < n - 1 - 0) := by omega
  rw [aquicksortPerm, introRec, if_neg hc]
  rw [insertionSegment, if_neg (by omega : ¬(n - 1 < 0))]
  cases n with
  | zero => simp [ainsertFold]
  | succ m =>
    have h1 : m + 1 - 1 + 1 - 0 = m + 1 := by omega
    have h2 : m + 1 - 1 + 1 = m + 1 := by omega
    rw [List.take_zero, List.nil_append, h1, h2, List.drop_zero,
      List.take_of_length_le (by simp), List.drop_eq_nil_of_le (by simp), List.append_nil]

/-- `getD` through a reversal flips the position. -/
theorem getD_reverse {α : Type} (l : List α) (d : α) {i : Nat} (hi : i < l.length) :
    l.reverse.getD i d = l.getD (l.length - 1 - i) d := by
  have hi2 : i < l.reverse.length := by simpa using hi
  rw [List.getD_eq_getElem _ _ hi2, List.getD_eq_getElem _ _ (by omega), List.getElem_reverse]

/-- The position flip `j ↦ n - 1 - j` maps the range to its reversal. -/
theorem map_sub_range (n : Nat) :
    (List.range n).map (fun j => n - 1 - j) = (List.range n).reverse := by
  refine List.ext_getElem (by simp) ?_
  intro i h1 h2
  simp [List.getElem_reverse, List.getElem_range, List.getElem_map]

/-- For rating columns of at most 16 rows, the pandas descending argsort is
a permutation of the positions that is strictly compatible with descending
rating and breaks rating ties by ascending original position. -/
theorem nargsortDesc_small {ρ : List ℚ} (hn : ρ.length ≤ 16) :
    (nargsortDesc ρ).Perm (List.range ρ.length) ∧
      (nargsortDesc ρ).Pairwise (fun a b =>
        ρ.getD b 0 < ρ.getD a 0 ∨ (ρ.getD a 0 = ρ.getD b 0 ∧ a < b)) := by
  obtain ⟨hpw, hperm⟩ := ainsertFold_range (fun i => ρ.reverse.getD i 0) ρ.length
  have hdef : nargsortDesc ρ =
      ((ainsertFold (fun i => ρ.reverse.getD i 0) (List.range ρ.length)).map
        (fun j => ρ.length - 1 - j)).reverse := by
    simp only [nargsortDesc]
    rw [aquicksortPerm_small _ hn]
  constructor
  · rw [hdef]
    have h1 : ((ainsertFold (fun i => ρ.reverse.getD i 0) (List.range ρ.length)).map
        (fun j => ρ.length - 1 - j)).Perm
        ((List.range ρ.length).map (fun j => ρ.length - 1 - j)) := hperm.map _
    rw [map_sub_range] at h1
    exact (List.reverse_perm _).trans (h1.trans (List.reverse_perm _))
  · rw [hdef, List.pairwise_reverse, List.pairwise_map]
    refine hpw.imp_of_mem ?_
    intro x y hx hy hlex
    have hxn : x < ρ.length := List.mem_range.mp (hperm.subset hx)
    have hyn : y < ρ.length := List.mem_range.mp (hperm.subset hy)
    have hvx : ρ.reverse.getD x 0 = ρ.getD (ρ.length - 1 - x) 0 := getD_reverse ρ 0 hxn
    have hvy : ρ.reverse.getD y 0 = ρ.getD (ρ.length - 1 - y) 0 := getD_reverse ρ 0 hyn
    rcases hlex with hlt | ⟨heq, hxy⟩
    · replace hlt : ρ.reverse.getD x 0 < ρ.reverse.getD y 0 := hlt
      rw [hvx, hvy] at hlt
      exact Or.inl hlt
    · replace heq : ρ.reverse.getD x 0 = ρ.reverse.getD y 0 := heq
      rw [hvx, hvy] at heq
      exact Or.inr ⟨heq.symm, by omega⟩

/-- Pool of the C5 counterexample: 17 High units with identical ratings. -/
def c5pool : List AuditUnit :=
  (List.range 17).map (fun i => ⟨i, "A", "s", "High", 0, false, 0⟩)

/-- C5 counterexample: on a 17-row pool of all-equal ratings — where a
stable descending sort must return the pool unchanged — the source's
`sort_values(..., ascending=False)` (numpy introsort, default
`kind="quicksort"`) runs its partition step and reorders the equal-rating
rows, so the original relative order of equal-rating units is not preserved
once the pool exceeds the introsort insertion threshold of 16. -/
theorem c5_tie_order_counterexample :
    (∀ u1 ∈ c5pool, ∀ u2 ∈ c5pool, u1.rating = u2.rating) ∧
    (c5pool.map (fun u => u.idx) = List.range 17) ∧
    ((sortPoolDesc c5pool).map (fun u => u.idx) =
      [0, 9, 15, 14, 13, 12, 11, 10, 8, 1, 7, 6, 5, 4, 3, 2, 16]) ∧
    sortPoolDesc c5pool ≠ c5pool := by
  refine ⟨?_, by with_unfolding_all decide, by with_unfolding_all decide,
    by with_unfolding_all decide⟩
  intro u1 h1 u2 h2
  simp only [c5pool, List.mem_map, List.mem_range] at h1 h2
  obtain ⟨i1, -, rfl⟩ := h1
  obtain ⟨i2, -, rfl⟩ := h2
  rfl

/-- C5 amended: the pool is reordered into rating-descending order before
units are taken, and for pools of at most 16 units (numpy's insertion-sort
regime) the sort is a permutation of the pool whose tie-break among equal
ratings preserves the pool's original relative order; beyond 16 units the
library quicksort partition may deterministically permute equal-rating rows
(witnessed at 17). -/
theorem c5_sort_stable_small (pool : List AuditUnit) (h16 : pool.length ≤ 16) :
    (sortPoolDesc pool).Perm pool ∧
      (nargsortDesc (pool.map (fun u => u.rating))).Pairwise (fun a b =>
        (pool.map (fun u => u.rating)).getD b 0 < (pool.map (fun u => u.rating)).getD a 0 ∨
        ((pool.map (fun u => u.rating)).getD a 0 = (pool.map (fun u => u.rating)).getD b 0 ∧
          a < b)) := by
  have hlen : (pool.map (fun u => u.rating)).length = pool.length := List.length_map _ _
  obtain ⟨hperm, hpw⟩ := nargsortDesc_small (ρ := pool.map (fun u => u.rating)) (by omega)
  refine ⟨?_, hpw⟩
  rw [sortPoolDesc]
  have h1 : ((nargsortDesc (pool.map (fun u => u.rating))).map
      (fun i => pool.getD i default)).Perm
      ((List.range pool.length).map (fun i => pool.getD i default)) := by
    have h2 := hperm.map (fun i => pool.getD i default)
    rwa [hlen] at h2
  rwa [map_getD_range] at h1

/-- Pool used by the closed instance of `c5_sort_stable_small`: two units
with equal ratings. -/
def c5pairPool : List AuditUnit :=
  [⟨0, "A", "s", "High", 7, false, 0⟩, ⟨1, "A", "s", "High", 7, false, 0⟩]

/-- Closed instance of `c5_sort_stable_small`: a two-row equal-rating pool
keeps its original order. -/
theorem c5_sort_stable_small_witness :
    (sortPoolDesc c5pairPool).Perm c5pairPool ∧
      (nargsortDesc (c5pairPool.map (fun u => u.rating))).Pairwise (fun a b =>
        (c5pairPool.map (fun u => u.rating)).getD b 0 <
          (c5pairPool.map (fun u => u.rating)).getD a 0 ∨
        ((c5pairPool.map (fun u => u.rating)).getD a 0 =
          (c5pairPool.map (fun u => u.rating)).getD b 0 ∧
          a < b)) :=
  c5_sort_stable_small c5pairPool (by decide)

/-- Closed instance of `c6_floor_semantics` at target 100, cost 30. -/
theorem c6_floor_semantics_witness :
    numUnitsOf 100 30 = max ⌊(100 : ℚ) / 30⌋ 0 ∧
    (0 ≤ ⌊(100 : ℚ) / 30⌋ → numUnitsOf 100 30 = ⌊(100 : ℚ) / 30⌋) ∧
    numUnitsOf 100 30 = 3 ∧ numUnitsOf 100 30 ≠ 4 ∧
    (numUnitsOf 100 30 = 0 →
      ∀ (audit subset : List AuditUnit) (riskLabel dept : String) (logs : List LogEntry),
        subset ≠ [] →
        select_units audit subset 100 30 riskLabel dept logs =
          some ⟨audit, logs ++ [.targetTooLow dept riskLabel 30], [], 0⟩) :=
  c6_floor_semantics 100 30 (by norm_num)

end AuditOpt
